import Mathlib

/-!
# Verification of the enrichM genome-annotation core (`bin/genome.py`)

Shallow embedding of the annotation record model, the per-sequence
overlap-resolution algorithm (`Sequence.add`, `Annotation.compare`),
the two result parsers (`AnnotationParser.from_blast_results`,
`AnnotationParser.from_hmmsearch_results`) and the genome-level
ingestion driver (`Genome.add`, `Genome.ordered_sequences`).

Conventions of the embedding:
* Python floats are modelled as `ℚ` (only comparisons, subtraction and
  division occur, so rationals are faithful for the decimal literals
  involved); Python ints as `ℤ`.
* The Python class `Annotation` is called `Annot` here, and its
  `annotation` field is called `annot` (the identifier string carried by
  a hit); everything else keeps the source names.
* A numeric field read from a result-file line is `Option ℚ` / `Option ℤ`:
  `none` models a token on which Python `float()` / `int()` raises
  `ValueError`.  Parsing a line is `Except String`-valued so that the
  fatal errors (`ValueError`, `IndexError`, `ZeroDivisionError`,
  `KeyError`, `UnboundLocalError`) of the source are explicit values.
* A Python `range(a, b)` region becomes `Finset.Ico a b : Finset ℤ`, and
  `set(region)` is a `Finset ℤ`; `len(r1.intersection(r2)) > 0` becomes
  `0 < (r1 ∩ r2).card`.
* Python dicts keyed by strings are association lists with
  overwrite-on-insert (`dictInsert`) and `find?`-based lookup (`dictGet`).
* Mutation of a `Genome`/`Sequence` is explicit state passing; a Python
  exception escaping `Genome.add` is the `Option String` component of the
  result, with the already-performed mutations kept (no rollback), exactly
  as for an in-place-mutated Python object.
-/

namespace EnrichM

/-- Embeds class `Annotation` (genome.py lines 205-216): identifier string
(`self.annotation`, here `annot`), e-value, region as a set of positions,
and the annotation type tag.  The type tag is `Option String` because the
source uses string constants for KO/PFAM/TIGRFAM and Python `None` for COG. -/
structure Annot where
  annot : String
  evalue : ℚ
  region : Finset ℤ
  type : Option String
  deriving DecidableEq

/-- Embeds `Annotation.compare` (genome.py lines 218-234): returns `True`
iff `self.evalue < other_annotation.evalue` (strict comparison). -/
def Annot.compare (self other : Annot) : Bool :=
  if self.evalue < other.evalue then true else false

/-- Embeds class `Sequence` (genome.py lines 118-132): the protein id, the
length in residues, and the list of stored `Annot` records.  The prodigal
header metadata (start, finish, direction, partial flag, ...) is decoded in
`__init__` but read by no operation any claim concerns, so it is omitted. -/
structure Sequence where
  seqname : String
  length : ℕ
  annotations : List Annot
  deriving DecidableEq

/-- Embeds `Sequence.add` (genome.py lines 182-202).  A new `Annot` is
built from the arguments.  If some stored record has the same type, the
stored list is scanned index by index (`for idx, previous_annotation in
enumerate(self.annotations)`), and slot `idx` is overwritten with the
candidate exactly when the stored record has the same type, the regions
intersect (`len(intersection) > 0`), and `compare` says the candidate is
strictly better; the in-place write at the current index never changes a
record the loop has yet to visit, so the loop is a `List.map` over the
original list.  Otherwise (no stored record of this type) the candidate is
appended. -/
def Sequence.add (s : Sequence) (a : String) (evalue : ℚ) (region : Finset ℤ)
    (annotation_type : Option String) : Sequence :=
  let na : Annot := ⟨a, evalue, region, annotation_type⟩
  if 0 < (s.annotations.filter (fun x => x.type == na.type)).length then
    { s with annotations := s.annotations.map (fun pa =>
        if pa.type == na.type then
          if 0 < (pa.region ∩ na.region).card then
            if na.compare pa then na else pa
          else pa
        else pa) }
  else
    { s with annotations := s.annotations ++ [na] }

/-- Embeds `Sequence.seqdict` (genome.py lines 143-156) as the final
Python dict, viewed as a partial map from positions to entries.
`some none` is a key whose value is Python `None`; `some (some id)` is a
key annotated with `id`; `none` is an absent key (`KeyError` on read).
The dict starts as `{x: None for x in range(self.length)}` and each
stored record then writes its identifier at every position of its region
— dict assignment creates keys, so a region reaching past the length
enlarges the key set; a later record in iteration order wins at shared
positions (`foldl`, outermost update checked first). -/
def Sequence.seqdict (s : Sequence) : ℤ → Option (Option String) :=
  s.annotations.foldl
    (fun d x => fun p => if p ∈ x.region then some (some x.annot) else d p)
    (fun p => if 0 ≤ p ∧ p < (s.length : ℤ) then some none else none)

/-- Reads the positions of `query_region` out of a seqdict-style partial
map in order, failing with Python's `KeyError` at the first absent key
(genome.py lines 178-179: `result.append(seq_dict[position])`). -/
def lookupAll (d : ℤ → Option (Option String)) : List ℤ → Except String (List (Option String))
  | [] => Except.ok []
  | p :: ps =>
    match d p with
    | none => Except.error "KeyError"
    | some v => (lookupAll d ps).map (fun rest => v :: rest)

/-- Embeds `Sequence.what` (genome.py lines 159-180): builds the seqdict
and returns the entry for each queried position, in input order; a
position that is no key of the seqdict raises `KeyError`. -/
def Sequence.what (s : Sequence) (query_region : List ℤ) : Except String (List (Option String)) :=
  lookupAll s.seqdict query_region

/-- Character-level worker for Python `str.split(sep)` with a one-character
separator: split the remaining characters at every occurrence of `sep`,
`acc` holding the characters of the current piece in reverse. -/
def splitCharAux (sep : Char) : List Char → List Char → List (List Char)
  | [], acc => [acc.reverse]
  | c :: cs, acc =>
    if c = sep then acc.reverse :: splitCharAux sep cs []
    else splitCharAux sep cs (c :: acc)

/-- Python `s.split(sep)` for a one-character separator (used for the
tilde split of blast field 1 at genome.py line 294): always yields at
least one piece, empty pieces included, exactly as `str.split` does. -/
def pySplit (s : String) (sep : Char) : List String :=
  (splitCharAux sep s.data []).map (fun l => String.mk l)

/-- A hit yielded by either parser (genome.py lines 295 and 350): the
query sequence name, the identifier/accession string, the e-value, and
the half-open region `range(min, max)`. -/
structure Hit where
  seqname : String
  annot : String
  evalue : ℚ
  region : Finset ℤ
  deriving DecidableEq

/-- One tokenised line of a blast outfmt-6 file, the fields
`from_blast_results` reads (genome.py lines 283-287): `sline[0]`,
`sline[1]`, `sline[2]`, `sline[6]`, `sline[7]`, `sline[10]`, `sline[11]`.
A numeric field is `none` when Python `float()`/`int()` would raise
`ValueError` on its token. -/
structure BlastLine where
  qseqid : String
  sseqid : String
  perc_id : Option ℚ
  q_start : Option ℤ
  q_end : Option ℤ
  evalue : Option ℚ
  bit : Option ℚ
  deriving DecidableEq

/-- Embeds the per-line body of `AnnotationParser.from_blast_results`
(genome.py lines 281-295), in the source's evaluation order: first
`seq_list = [int(x) for x in sline[6:8]]` (line 287, unconditional), then
the short-circuiting cutoff test `float(evalue) <= evalue_cutoff and
float(bit) >= bitscore_cutoff and float(perc_id) >= percent_id_cutoff`
(lines 290-292, so `float(bit)` only runs when the e-value conjunct
holds, and `float(perc_id)` only when the first two hold), and on
acceptance the yield of `(sline[0], sline[1].split(chr(126))[1], evalue,
range(min(seq_list), max(seq_list)))` — `IndexError` when `sline[1]`
holds no tilde.  `Except.ok none` is a line filtered out by the cutoffs. -/
def from_blast_results_line (evalue_cutoff bitscore_cutoff percent_id_cutoff : ℚ)
    (l : BlastLine) : Except String (Option Hit) :=
  match l.q_start, l.q_end with
  | some qs, some qe =>
    match l.evalue with
    | some ev =>
      if ev ≤ evalue_cutoff then
        match l.bit with
        | some b =>
          if bitscore_cutoff ≤ b then
            match l.perc_id with
            | some pid =>
              if percent_id_cutoff ≤ pid then
                match (pySplit l.sseqid '~').get? 1 with
                | some acc =>
                  Except.ok (some ⟨l.qseqid, acc, ev, Finset.Ico (min qs qe) (max qs qe)⟩)
                | none => Except.error "IndexError"
              else Except.ok none
            | none => Except.error "ValueError"
          else Except.ok none
        | none => Except.error "ValueError"
      else Except.ok none
    | none => Except.error "ValueError"
  | _, _ => Except.error "ValueError"

/-- One tokenised non-description part of a domtblout line, the fields
`from_hmmsearch_results` reads (genome.py lines 330-334): target name
(0), target length (2), query name (3), accession (4), query length (5),
full-sequence e-value (6), score (7), hmm span (15, 16), sequence span
(17, 18).  `isComment` records `line.startswith(chr(35))`.  Numeric
fields are `none` when `float()`/`int()` would raise. -/
structure HmmLine where
  isComment : Bool
  seqname : String
  tlen : Option ℚ
  query_name : String
  accession : String
  qlen : Option ℚ
  evalue : Option ℚ
  score : Option ℚ
  hmm_from : Option ℤ
  hmm_to : Option ℤ
  seq_from : Option ℤ
  seq_to : Option ℤ
  deriving DecidableEq

/-- Embeds the per-line body of `AnnotationParser.from_hmmsearch_results`
(genome.py lines 325-350), in the source's evaluation order: comment
lines are skipped; `seq_list` (line 337) and `hmm_list` (line 338) are
int-converted; `perc_seq_aln = (max(seq_list)-min(seq_list))/float(tlen)`
(line 341) and `perc_hmm_aln = (max(seq_list)-min(seq_list))/float(qlen)`
(line 342) — both ratios divide the same sequence-coordinate span, and a
zero length raises `ZeroDivisionError`; then the short-circuiting cutoff
test of lines 345-348, and on acceptance the yield of
`(seqname, accession, evalue, range(min(seq_list), max(seq_list)))`. -/
def from_hmmsearch_results_line
    (evalue_cutoff bitscore_cutoff percent_aln_query_cutoff percent_aln_reference_cutoff : ℚ)
    (l : HmmLine) : Except String (Option Hit) :=
  if l.isComment then Except.ok none else
  match l.seq_from, l.seq_to with
  | some sf, some st =>
    match l.hmm_from, l.hmm_to with
    | some _, some _ =>
      match l.tlen with
      | some tl =>
        if tl = 0 then Except.error "ZeroDivisionError" else
        let perc_seq_aln : ℚ := ((max sf st - min sf st : ℤ) : ℚ) / tl
        match l.qlen with
        | some ql =>
          if ql = 0 then Except.error "ZeroDivisionError" else
          let perc_hmm_aln : ℚ := ((max sf st - min sf st : ℤ) : ℚ) / ql
          match l.evalue with
          | some ev =>
            if ev ≤ evalue_cutoff then
              match l.score with
              | some sc =>
                if bitscore_cutoff ≤ sc then
                  if percent_aln_query_cutoff ≤ perc_seq_aln then
                    if percent_aln_reference_cutoff ≤ perc_hmm_aln then
                      Except.ok (some ⟨l.seqname, l.accession, ev,
                        Finset.Ico (min sf st) (max sf st)⟩)
                    else Except.ok none
                  else Except.ok none
                else Except.ok none
              | none => Except.error "ValueError"
            else Except.ok none
          | none => Except.error "ValueError"
        | none => Except.error "ValueError"
      | none => Except.error "ValueError"
    | _, _ => Except.error "ValueError"
  | _, _ => Except.error "ValueError"

/-- `AnnotationParser.KO` (genome.py line 241). -/
def KO : Option String := some "KO_IDS.txt"

/-- `AnnotationParser.PFAM` (genome.py line 242). -/
def PFAM : Option String := some "PFAM_IDS.txt"

/-- `AnnotationParser.TIGRFAM` (genome.py line 243). -/
def TIGRFAM : Option String := some "TIGRFAM_IDS.txt"

/-- `AnnotationParser.COG` (genome.py line 244): the Python value is
`None`. -/
def COG : Option String := none

/-- Python dict assignment `d[k] = v` on a string-keyed dict modelled as
an association list: overwrite the value when the key is present,
otherwise append the binding (insertion order preserved, as for CPython
dicts). -/
def dictInsert {α : Type} (d : List (String × α)) (k : String) (v : α) :
    List (String × α) :=
  if d.any (fun p => p.1 == k) then
    d.map (fun p => if p.1 == k then (k, v) else p)
  else
    d ++ [(k, v)]

/-- Python dict read `d[k]` modelled on an association list: `none` is a
`KeyError`. -/
def dictGet {α : Type} (d : List (String × α)) (k : String) : Option α :=
  (d.find? (fun p => p.1 == k)).map (fun p => p.2)

/-- One record of the input protein fasta file, as `Genome.__init__`
consumes it (genome.py lines 48-51): the record name keys the sequences
dict, and the `Sequence` is built from the description and the sequence
length. -/
structure FastaRecord where
  name : String
  seqlen : ℕ
  deriving DecidableEq

/-- The `Sequence` built for one fasta record (genome.py line 49) with no
stored annotations yet.  The prodigal description decode only fills the
metadata fields omitted from `Sequence`, so only the name and length
remain. -/
def mkSequence (r : FastaRecord) : Sequence :=
  ⟨r.name, r.seqlen, []⟩

/-- Embeds class `Genome` (genome.py lines 36-51): `protein_ordered_dict`
maps the running record count `0, 1, 2, ...` to the record name, so
listing its values in sorted key order is exactly this name list in file
order; `sequences` is the name-keyed dict of `Sequence` records. -/
structure Genome where
  name : String
  protein_ordered_list : List String
  sequences : List (String × Sequence)
  deriving DecidableEq

/-- Embeds `Genome.__init__` (genome.py lines 41-51): one pass over the
fasta records, recording each name at the next counter key and inserting
`self.sequences[protein.name] = sequence` (overwriting on a repeated
name, as the dict does). -/
def mkGenome (name : String) (proteins : List FastaRecord) : Genome :=
  ⟨name, proteins.map (fun r => r.name),
    proteins.foldl (fun d r => dictInsert d r.name (mkSequence r)) []⟩

/-- Embeds `Genome.ordered_sequences` (genome.py lines 111-116): yield
`self.sequences[self.protein_ordered_dict[k]]` for `k` in sorted key
order, i.e. look each recorded name up in the sequences dict, in file
order.  (`filterMap`: a missing name would raise `KeyError` in Python
and is skipped here; `mkGenome` never produces one.) -/
def Genome.ordered_sequences (g : Genome) : List Sequence :=
  g.protein_ordered_list.filterMap (fun n => dictGet g.sequences n)

/-- One step of the loop body of `Genome.add` (genome.py lines 91-92):
`self.sequences[seqname].add(annotation, evalue, annotation_range,
annotation_type)` — mutate the sequence stored under the hit's name, or
raise `KeyError` when the name is no key of the dict. -/
def Genome.applyHit (g : Genome) (h : Hit) (annotation_type : Option String) :
    Except String Genome :=
  match dictGet g.sequences h.seqname with
  | some _ =>
    Except.ok { g with sequences := g.sequences.map (fun p =>
      if p.1 == h.seqname then (p.1, p.2.add h.annot h.evalue h.region annotation_type) else p) }
  | none => Except.error "KeyError"

/-- Drives `from_blast_results` line by line through the `Genome.add`
loop (genome.py lines 87-92): each accepted hit mutates its sequence; the
first raising line stops ingestion with that error, keeping every
mutation already performed (the Python exception escapes, the genome
object stays as mutated — no rollback). -/
def processBlastLines (evalue_cutoff bitscore_cutoff percent_id_cutoff : ℚ)
    (annotation_type : Option String) : Genome → List BlastLine → Genome × Option String
  | g, [] => (g, none)
  | g, l :: ls =>
    match from_blast_results_line evalue_cutoff bitscore_cutoff percent_id_cutoff l with
    | Except.error e => (g, some e)
    | Except.ok none =>
      processBlastLines evalue_cutoff bitscore_cutoff percent_id_cutoff annotation_type g ls
    | Except.ok (some h) =>
      match g.applyHit h annotation_type with
      | Except.error e => (g, some e)
      | Except.ok g2 =>
        processBlastLines evalue_cutoff bitscore_cutoff percent_id_cutoff annotation_type g2 ls

/-- Drives `from_hmmsearch_results` line by line through the `Genome.add`
loop (genome.py lines 79-81 and 91-92), with the same
stop-at-first-error, keep-prior-mutations behaviour. -/
def processHmmLines
    (evalue_cutoff bitscore_cutoff percent_aln_query_cutoff percent_aln_reference_cutoff : ℚ)
    (annotation_type : Option String) : Genome → List HmmLine → Genome × Option String
  | g, [] => (g, none)
  | g, l :: ls =>
    match from_hmmsearch_results_line evalue_cutoff bitscore_cutoff
        percent_aln_query_cutoff percent_aln_reference_cutoff l with
    | Except.error e => (g, some e)
    | Except.ok none =>
      processHmmLines evalue_cutoff bitscore_cutoff percent_aln_query_cutoff
        percent_aln_reference_cutoff annotation_type g ls
    | Except.ok (some h) =>
      match g.applyHit h annotation_type with
      | Except.error e => (g, some e)
      | Except.ok g2 =>
        processHmmLines evalue_cutoff bitscore_cutoff percent_aln_query_cutoff
          percent_aln_reference_cutoff annotation_type g2 ls

/-- Embeds `Genome.add` (genome.py lines 53-92).  The annotations file is
passed in both tokenisations; the dispatch on `annotation_type` picks
which one the selected parser consumes (PFAM/TIGRFAM: hmmsearch; KO/COG:
blast).  Any other type leaves `iterator` unassigned, so the `for` loop
at line 91 raises `UnboundLocalError` with the genome untouched. -/
def Genome.add (g : Genome) (blast_lines : List BlastLine) (hmm_lines : List HmmLine)
    (evalue_cutoff bitscore_cutoff percent_aln_query_cutoff percent_aln_reference_cutoff : ℚ)
    (annotation_type : Option String) : Genome × Option String :=
  if annotation_type = PFAM ∨ annotation_type = TIGRFAM then
    processHmmLines evalue_cutoff bitscore_cutoff percent_aln_query_cutoff
      percent_aln_reference_cutoff annotation_type g hmm_lines
  else if annotation_type = KO ∨ annotation_type = COG then
    processBlastLines evalue_cutoff bitscore_cutoff percent_aln_query_cutoff
      annotation_type g blast_lines
  else
    (g, some "UnboundLocalError")

/-- The record invariant stated by the spec for a stored record: the
confidence (e-value) is non-negative and the region is non-empty and
contained in `[0, length)` of the owning sequence. -/
def annotInv (len : ℕ) (x : Annot) : Prop :=
  0 ≤ x.evalue ∧ x.region.Nonempty ∧ x.region ⊆ Finset.Ico 0 (len : ℤ)

instance (len : ℕ) (x : Annot) : Decidable (annotInv len x) := by
  unfold annotInv
  infer_instance

/-! ## Helper lemmas about `Sequence.add` -/

/-- The gate of `Sequence.add` (`len([x for x in self.annotations if
x.type == new_annotation.type]) > 0`) holds iff some stored record has
the candidate's type. -/
theorem filter_type_pos_iff (l : List Annot) (ty : Option String) :
    0 < (l.filter (fun x => x.type == ty)).length ↔ ∃ x ∈ l, x.type = ty := by
  induction l with
  | nil => simp
  | cons a l ih =>
    by_cases h : a.type = ty <;> simp [List.filter_cons, h, ih]

/-- `Annotation.compare` decides the strict e-value comparison. -/
theorem compare_eq_true_iff (a b : Annot) : a.compare b = true ↔ a.evalue < b.evalue := by
  simp [Annot.compare]

/-- When a stored record already has the candidate's type, `Sequence.add`
rewrites each slot of the stored list: a slot is overwritten with the
candidate exactly when its record has the same type, an intersecting
region, and a strictly larger e-value. -/
theorem add_eq_map (s : Sequence) (a : String) (ev : ℚ) (reg : Finset ℤ)
    (ty : Option String) (h : ∃ x ∈ s.annotations, x.type = ty) :
    (s.add a ev reg ty).annotations =
      s.annotations.map (fun pa =>
        if pa.type = ty ∧ (pa.region ∩ reg).Nonempty ∧ ev < pa.evalue
        then ⟨a, ev, reg, ty⟩ else pa) := by
  simp only [Sequence.add]
  rw [if_pos ((filter_type_pos_iff s.annotations ty).2 h)]
  apply List.map_congr_left
  intro pa _
  by_cases h1 : pa.type = ty
  · by_cases h2 : (pa.region ∩ reg).Nonempty
    · by_cases h3 : ev < pa.evalue <;>
        simp [h1, h2, h3, Annot.compare, Finset.card_pos]
    · simp [h1, h2, Finset.card_pos]
  · simp [h1]

/-- When no stored record has the candidate's type, `Sequence.add`
appends the candidate. -/
theorem add_eq_append (s : Sequence) (a : String) (ev : ℚ) (reg : Finset ℤ)
    (ty : Option String) (h : ∀ x ∈ s.annotations, x.type ≠ ty) :
    (s.add a ev reg ty).annotations = s.annotations ++ [⟨a, ev, reg, ty⟩] := by
  simp only [Sequence.add]
  rw [if_neg]
  intro hpos
  obtain ⟨x, hx, hxty⟩ := (filter_type_pos_iff s.annotations ty).1 hpos
  exact h x hx hxty

/-- `Sequence.add` never changes the name or length fields. -/
theorem add_seqname_length (s : Sequence) (a : String) (ev : ℚ) (reg : Finset ℤ)
    (ty : Option String) :
    (s.add a ev reg ty).seqname = s.seqname ∧ (s.add a ev reg ty).length = s.length := by
  simp only [Sequence.add]
  split <;> exact ⟨rfl, rfl⟩

/-! ## The claims -/

/-- C1: for a sequence whose stored list already holds a record of the
candidate's type, `Sequence.add` replaces a stored same-type record whose
region intersects the candidate's region if and only if the candidate's
e-value is strictly smaller than that record's e-value (an equal e-value
never replaces, by strictness of `<`), and one call performs this
replacement at every such slot simultaneously — stated as the slot-wise
`List.map` characterisation of the updated list. -/
theorem sequence_add_replaces_overlap_iff_strictly_better (s : Sequence) (a : String)
    (ev : ℚ) (reg : Finset ℤ) (ty : Option String)
    (h : ∃ x ∈ s.annotations, x.type = ty) :
    (s.add a ev reg ty).annotations =
      s.annotations.map (fun pa =>
        if pa.type = ty ∧ (pa.region ∩ reg).Nonempty ∧ ev < pa.evalue
        then ⟨a, ev, reg, ty⟩ else pa) :=
  add_eq_map s a ev reg ty h

/-- C1 witness: one concrete call replaces both overlapping same-type
records with strictly larger e-values (5 and 3) but not the overlapping
record with the equal e-value 1. -/
theorem sequence_add_replaces_overlap_iff_strictly_better_witness :
    ((Sequence.mk "seq_1" 100
        [⟨"K00001", 5, Finset.Ico 0 10, KO⟩,
         ⟨"K00002", 3, Finset.Ico 8 20, KO⟩,
         ⟨"K00003", 1, Finset.Ico 2 4, KO⟩]).add "K00009"
        1 (Finset.Ico 3 15) KO).annotations =
      [⟨"K00009", 1, Finset.Ico 3 15, KO⟩,
       ⟨"K00009", 1, Finset.Ico 3 15, KO⟩,
       ⟨"K00003", 1, Finset.Ico 2 4, KO⟩] := by
  rw [sequence_add_replaces_overlap_iff_strictly_better _ _ _ _ _
    ⟨⟨"K00001", 5, Finset.Ico 0 10, KO⟩, by simp, rfl⟩]
  decide

/-- C2: a candidate sharing its type with stored records but overlapping
none of them is neither appended nor retained — the stored collection is
unchanged. -/
theorem sequence_add_nonoverlapping_same_type_dropped (s : Sequence) (a : String)
    (ev : ℚ) (reg : Finset ℤ) (ty : Option String)
    (h : ∃ x ∈ s.annotations, x.type = ty)
    (hno : ∀ x ∈ s.annotations, x.type = ty → x.region ∩ reg = ∅) :
    (s.add a ev reg ty).annotations = s.annotations := by
  rw [add_eq_map s a ev reg ty h]
  conv_rhs => rw [← List.map_id s.annotations]
  apply List.map_congr_left
  intro pa hpa
  by_cases h1 : pa.type = ty
  · have hint := hno pa hpa h1
    simp [h1, hint]
  · simp [h1]

/-- C2 witness: a same-type candidate on region `[20,30)` against a
stored record on `[0,10)` leaves the collection unchanged, even with a
strictly better e-value. -/
theorem sequence_add_nonoverlapping_same_type_dropped_witness :
    ((Sequence.mk "seq_1" 100 [⟨"K00001", 5, Finset.Ico 0 10, KO⟩]).add "K00002" 1
        (Finset.Ico 20 30) KO).annotations =
      [⟨"K00001", 5, Finset.Ico 0 10, KO⟩] :=
  sequence_add_nonoverlapping_same_type_dropped _ _ _ _ _
    ⟨⟨"K00001", 5, Finset.Ico 0 10, KO⟩, by simp, rfl⟩ (by decide)

/-- C3: on a sequence with no stored records, adding two same-type
candidates with intersecting regions and e-values `1e-10` and `1e-5` in
either order ends with exactly the one record carrying e-value `1e-10`
(the `1e-10` candidate), so the final state is order-independent for this
pair. -/
theorem add_pair_order_independent (s : Sequence) (a1 a2 : String)
    (r1 r2 : Finset ℤ) (ty : Option String)
    (h0 : s.annotations = []) (hov : (r1 ∩ r2).Nonempty) :
    ((s.add a1 (1/10000000000) r1 ty).add a2 (1/100000) r2 ty).annotations =
        [⟨a1, 1/10000000000, r1, ty⟩] ∧
    ((s.add a2 (1/100000) r2 ty).add a1 (1/10000000000) r1 ty).annotations =
        [⟨a1, 1/10000000000, r1, ty⟩] := by
  have e1 : (s.add a1 (1/10000000000) r1 ty).annotations = [⟨a1, 1/10000000000, r1, ty⟩] := by
    rw [add_eq_append _ _ _ _ _ (by simp [h0]), h0]
    rfl
  have e2 : (s.add a2 (1/100000) r2 ty).annotations = [⟨a2, 1/100000, r2, ty⟩] := by
    rw [add_eq_append _ _ _ _ _ (by simp [h0]), h0]
    rfl
  constructor
  · rw [add_eq_map _ _ _ _ _ ⟨⟨a1, 1/10000000000, r1, ty⟩,
      by rw [e1]; exact List.mem_singleton_self _, rfl⟩, e1]
    simp only [List.map_cons, List.map_nil]
    rw [if_neg]
    rintro ⟨-, -, hlt⟩
    norm_num at hlt
  · rw [add_eq_map _ _ _ _ _ ⟨⟨a2, 1/100000, r2, ty⟩,
      by rw [e2]; exact List.mem_singleton_self _, rfl⟩, e2]
    simp only [List.map_cons, List.map_nil]
    rw [if_pos ⟨trivial, by rwa [Finset.inter_comm], by norm_num⟩]

/-- C3 witness: the pair on concrete regions `[0,10)` and `[5,20)` in a
fresh sequence, in both orders. -/
theorem add_pair_order_independent_witness :
    (((Sequence.mk "seq_1" 100 []).add "K00001" (1/10000000000) (Finset.Ico 0 10) KO).add
        "K00002" (1/100000) (Finset.Ico 5 20) KO).annotations =
      [⟨"K00001", 1/10000000000, Finset.Ico 0 10, KO⟩] ∧
    (((Sequence.mk "seq_1" 100 []).add "K00002" (1/100000) (Finset.Ico 5 20) KO).add
        "K00001" (1/10000000000) (Finset.Ico 0 10) KO).annotations =
      [⟨"K00001", 1/10000000000, Finset.Ico 0 10, KO⟩] :=
  add_pair_order_independent _ "K00001" "K00002" _ _ KO rfl (by decide)

/-- C4: a well-formed blast tabular line (numeric fields parseable, a
tilde in field 1) yields a hit iff its e-value is at most the e-value
cutoff, its bit score at least the bitscore cutoff, and its percent
identity at least the percent cutoff; the yielded hit carries the query
id of field 0, the piece after the first tilde of field 1, the e-value,
and the half-open region from min to max of fields 6-7; a line failing
some cutoff yields nothing (and no error). -/
theorem blast_line_accepted_iff (ec bc pc : ℚ) (l : BlastLine)
    (pid ev b : ℚ) (qs qe : ℤ) (acc : String)
    (hp : l.perc_id = some pid) (h6 : l.q_start = some qs) (h7 : l.q_end = some qe)
    (he : l.evalue = some ev) (hb : l.bit = some b)
    (ha : (pySplit l.sseqid '~').get? 1 = some acc) :
    (from_blast_results_line ec bc pc l =
        Except.ok (some ⟨l.qseqid, acc, ev, Finset.Ico (min qs qe) (max qs qe)⟩) ↔
      ev ≤ ec ∧ bc ≤ b ∧ pc ≤ pid) ∧
    (¬(ev ≤ ec ∧ bc ≤ b ∧ pc ≤ pid) →
      from_blast_results_line ec bc pc l = Except.ok none) := by
  simp only [from_blast_results_line, h6, h7, he, hb, hp, ha]
  by_cases h1 : ev ≤ ec
  · by_cases h2 : bc ≤ b
    · by_cases h3 : pc ≤ pid <;> simp [h1, h2, h3]
    · simp [h1, h2]
  · simp [h1]

/-- C4 witness: a concrete line with e-value 2, bit score 50, percent
identity 90 against cutoffs 3, 40, 80 is accepted and carries query id,
tilde-split accession, e-value and region `[9, 21)`. -/
theorem blast_line_accepted_iff_witness :
    from_blast_results_line 3 40 80
        ⟨"seq_1", "gene~K00001", some 90, some 21, some 9, some 2, some 50⟩ =
      Except.ok (some ⟨"seq_1", "K00001", 2, Finset.Ico (min 21 9) (max 21 9)⟩) :=
  (blast_line_accepted_iff 3 40 80
      ⟨"seq_1", "gene~K00001", some 90, some 21, some 9, some 2, some 50⟩
      90 2 50 21 9 "K00001" rfl rfl rfl rfl rfl (by decide)).1.mpr
    (by norm_num)

/-- C5: on a well-formed non-comment domtblout line, both percent-aligned
ratios divide the sequence-coordinate span (fields 17-18) — by the target
length for percent-of-target-aligned and by the query length for
percent-of-query-aligned — and the line yields a hit iff e-value, score
and both ratios meet their cutoffs; the hmm-coordinate span (fields
15-16) is parsed but unused, so changing it to any other parseable span
never changes the result; a line failing some cutoff yields nothing. -/
theorem hmm_line_ratios_from_seq_span (ec bc qc rc : ℚ) (l : HmmLine)
    (tl ql ev sc : ℚ) (sf st hf ht : ℤ)
    (hcom : l.isComment = false)
    (h17 : l.seq_from = some sf) (h18 : l.seq_to = some st)
    (h15 : l.hmm_from = some hf) (h16 : l.hmm_to = some ht)
    (htl : l.tlen = some tl) (hql : l.qlen = some ql)
    (he : l.evalue = some ev) (hsc : l.score = some sc)
    (htl0 : tl ≠ 0) (hql0 : ql ≠ 0) :
    (from_hmmsearch_results_line ec bc qc rc l =
        Except.ok (some ⟨l.seqname, l.accession, ev, Finset.Ico (min sf st) (max sf st)⟩) ↔
      ev ≤ ec ∧ bc ≤ sc ∧ qc ≤ ((max sf st - min sf st : ℤ) : ℚ) / tl ∧
        rc ≤ ((max sf st - min sf st : ℤ) : ℚ) / ql) ∧
    (∀ hf2 ht2 : ℤ,
      from_hmmsearch_results_line ec bc qc rc
          { l with hmm_from := some hf2, hmm_to := some ht2 } =
        from_hmmsearch_results_line ec bc qc rc l) ∧
    (¬(ev ≤ ec ∧ bc ≤ sc ∧ qc ≤ ((max sf st - min sf st : ℤ) : ℚ) / tl ∧
        rc ≤ ((max sf st - min sf st : ℤ) : ℚ) / ql) →
      from_hmmsearch_results_line ec bc qc rc l = Except.ok none) := by
  obtain ⟨com, sqn, tlen0, qn, accs, qlen0, ev0, sc0, hf0, ht0, sf0, st0⟩ := l
  simp only at hcom h17 h18 h15 h16 htl hql he hsc
  subst hcom h17 h18 h15 h16 htl hql he hsc
  have main : ∀ hf2 ht2 : ℤ,
      from_hmmsearch_results_line ec bc qc rc
        ⟨false, sqn, some tl, qn, accs, some ql, some ev, some sc,
          some hf2, some ht2, some sf, some st⟩ =
      (if ev ≤ ec ∧ bc ≤ sc ∧ qc ≤ ((max sf st - min sf st : ℤ) : ℚ) / tl ∧
          rc ≤ ((max sf st - min sf st : ℤ) : ℚ) / ql then
        Except.ok (some ⟨sqn, accs, ev, Finset.Ico (min sf st) (max sf st)⟩)
      else Except.ok none) := by
    intro hf2 ht2
    simp only [from_hmmsearch_results_line, Bool.false_eq_true, if_false,
      if_neg htl0, if_neg hql0]
    split_ifs <;> first | rfl | tauto
  refine ⟨?_, ?_, ?_⟩
  · rw [main hf ht]
    by_cases hc : ev ≤ ec ∧ bc ≤ sc ∧ qc ≤ ((max sf st - min sf st : ℤ) : ℚ) / tl ∧
        rc ≤ ((max sf st - min sf st : ℤ) : ℚ) / ql <;> simp [hc]
  · intro hf2 ht2
    rw [main hf ht, main hf2 ht2]
  · intro hc
    rw [main hf ht, if_neg hc]

/-- C5 witness: a concrete line with sequence span `[10, 60)` (span 50),
target length 100 and query length 200 gives ratios 1/2 and 1/4, passes
cutoffs (3, 40, 1/4, 1/8), and is insensitive to its hmm span. -/
theorem hmm_line_ratios_from_seq_span_witness :
    from_hmmsearch_results_line 3 40 (1/4) (1/8)
        ⟨false, "seq_2", some 100, "PF1", "PF00001.1", some 200, some 2, some 50,
          some 7, some 93, some 10, some 60⟩ =
      Except.ok (some ⟨"seq_2", "PF00001.1", 2, Finset.Ico (min 10 60) (max 10 60)⟩) :=
  (hmm_line_ratios_from_seq_span 3 40 (1/4) (1/8)
      ⟨false, "seq_2", some 100, "PF1", "PF00001.1", some 200, some 2, some 50,
        some 7, some 93, some 10, some 60⟩
      100 200 2 50 10 60 7 93 rfl rfl rfl rfl rfl rfl rfl rfl rfl
      (by norm_num) (by norm_num)).1.mpr (by norm_num)

/-- C7: requesting an annotation type other than the four parser
constants makes `Genome.add` fail — the dispatch assigns no iterator, so
the loop raises (`UnboundLocalError`, the failure the spec's taxonomy
labels ConfigurationError) — and the genome comes back untouched, with no
annotation added to any sequence. -/
theorem genome_add_unknown_type_fails_untouched (g : Genome)
    (bls : List BlastLine) (hls : List HmmLine) (ec bc qc rc : ℚ)
    (ty : Option String)
    (h : ty ≠ KO ∧ ty ≠ PFAM ∧ ty ≠ TIGRFAM ∧ ty ≠ COG) :
    g.add bls hls ec bc qc rc ty = (g, some "UnboundLocalError") := by
  obtain ⟨h1, h2, h3, h4⟩ := h
  simp [Genome.add, h1, h2, h3, h4]

/-- C7 witness: the unsupported type string `CAZY` fails on a concrete
one-protein genome and leaves it unchanged. -/
theorem genome_add_unknown_type_fails_untouched_witness :
    (mkGenome "g" [⟨"seq_1", 100⟩]).add [] [] 1 1 1 1 (some "CAZY") =
      (mkGenome "g" [⟨"seq_1", 100⟩], some "UnboundLocalError") :=
  genome_add_unknown_type_fails_untouched _ _ _ _ _ _ _ _ (by decide)

/-- C6 counterexample: a result file whose only line carries a malformed
(non-numeric) bit-score field together with an e-value that misses the
cutoff is ingested to completion with no error at all — the short-circuit
`and` never reaches `float(bit)` — refuting the claim that every line
with a malformed numeric field aborts ingestion. -/
theorem blast_ingest_malformed_bit_no_error :
    processBlastLines 1 40 80 KO (mkGenome "g" [⟨"seq_1", 100⟩])
        [⟨"seq_1", "gene~K00001", some 90, some 1, some 10, some 10, none⟩] =
      (mkGenome "g" [⟨"seq_1", 100⟩], none) := by decide

/-- C6 amended: a line whose e-value field is malformed (a field the
parser always converts) aborts ingestion with `ValueError` — the failure
the spec's taxonomy labels ParseError — exactly when that line is
reached: every annotation attached by the preceding lines stays attached
(the first component is the genome state after the good prefix), no later
line is processed, and nothing is rolled back.  (Malformed bit-score or
percent-identity fields abort only when the short-circuiting cutoff
conjunction reaches them; malformed coordinate fields abort like the
e-value.) -/
theorem blast_ingest_fails_at_malformed_evalue (ec bc pc : ℚ) (ty : Option String)
    (g : Genome) (goods : List BlastLine) (bad : BlastLine) (rest : List BlastLine)
    (hgoods : (processBlastLines ec bc pc ty g goods).2 = none)
    (h6 : bad.q_start.isSome) (h7 : bad.q_end.isSome) (hbe : bad.evalue = none) :
    processBlastLines ec bc pc ty g (goods ++ bad :: rest) =
      ((processBlastLines ec bc pc ty g goods).1, some "ValueError") := by
  induction goods generalizing g with
  | nil =>
    obtain ⟨qs, hqs⟩ := Option.isSome_iff_exists.1 h6
    obtain ⟨qe, hqe⟩ := Option.isSome_iff_exists.1 h7
    simp [processBlastLines, from_blast_results_line, hqs, hqe, hbe]
  | cons l ls ih =>
    rw [List.cons_append]
    cases hl : from_blast_results_line ec bc pc l with
    | error e =>
      simp only [processBlastLines, hl] at hgoods
      simp at hgoods
    | ok v =>
      cases v with
      | none =>
        simp only [processBlastLines, hl] at hgoods ⊢
        exact ih g hgoods
      | some hh =>
        cases ha : g.applyHit hh ty with
        | error e =>
          simp only [processBlastLines, hl, ha] at hgoods
          simp at hgoods
        | ok g2 =>
          simp only [processBlastLines, hl, ha] at hgoods ⊢
          exact ih g2 hgoods

/-- C6 amended witness: one good line attaches `K00001` to `seq_1`, then
the malformed-e-value line aborts with the error; the attached annotation
survives in the returned genome. -/
theorem blast_ingest_fails_at_malformed_evalue_witness :
    processBlastLines 3 40 80 KO (mkGenome "g" [⟨"seq_1", 100⟩])
        [⟨"seq_1", "gene~K00001", some 90, some 21, some 9, some 2, some 50⟩,
         ⟨"seq_1", "gene~K00002", some 90, some 30, some 40, none, some 50⟩] =
      (⟨"g", ["seq_1"],
          [("seq_1", ⟨"seq_1", 100, [⟨"K00001", 2, Finset.Ico 9 21, KO⟩]⟩)]⟩,
        some "ValueError") := by
  have h := blast_ingest_fails_at_malformed_evalue 3 40 80 KO
    (mkGenome "g" [⟨"seq_1", 100⟩])
    [⟨"seq_1", "gene~K00001", some 90, some 21, some 9, some 2, some 50⟩]
    ⟨"seq_1", "gene~K00002", some 90, some 30, some 40, none, some 50⟩ []
    (by decide) (by decide) (by decide) rfl
  exact h.trans (by decide)

/-- C8 counterexample: `Sequence.add` validates nothing, so a candidate
with a negative e-value and a region outside `[0, length)` is stored as
is, refuting the invariant as stated for every stored record. -/
theorem sequence_add_invariant_counterexample :
    ∃ x ∈ ((Sequence.mk "seq_1" 5 []).add "K00001" (-1) {10} KO).annotations,
      ¬ annotInv 5 x := by decide

/-- C8 amended: every record `Sequence.add` stores is either a record
already stored or the candidate itself, so when all stored records and
the candidate satisfy the invariant (non-negative e-value, non-empty
region inside `[0, length)`), every record stored after the call still
satisfies it; the code itself never enforces this precondition. -/
theorem sequence_add_invariant_preserved (s : Sequence) (a : String) (ev : ℚ)
    (reg : Finset ℤ) (ty : Option String)
    (hs : ∀ x ∈ s.annotations, annotInv s.length x)
    (hc : annotInv s.length ⟨a, ev, reg, ty⟩) :
    ∀ x ∈ (s.add a ev reg ty).annotations, annotInv (s.add a ev reg ty).length x := by
  rw [(add_seqname_length s a ev reg ty).2]
  intro x hx
  by_cases hg : ∃ y ∈ s.annotations, y.type = ty
  · rw [add_eq_map s a ev reg ty hg] at hx
    obtain ⟨pa, hpa, hmap⟩ := List.mem_map.1 hx
    by_cases hcond : pa.type = ty ∧ (pa.region ∩ reg).Nonempty ∧ ev < pa.evalue
    · rw [if_pos hcond] at hmap
      rw [← hmap]
      exact hc
    · rw [if_neg hcond] at hmap
      rw [← hmap]
      exact hs pa hpa
  · push_neg at hg
    rw [add_eq_append s a ev reg ty hg] at hx
    rcases List.mem_append.1 hx with hmem | hmem
    · exact hs x hmem
    · rw [List.mem_singleton] at hmem
      rw [hmem]
      exact hc

/-- C8 amended witness: a valid candidate on a fresh sequence of length 5
keeps the invariant. -/
theorem sequence_add_invariant_preserved_witness :
    annotInv ((Sequence.mk "seq_1" 5 []).add "K00001" 1 {1, 2} KO).length
      ⟨"K00001", 1, {1, 2}, KO⟩ :=
  sequence_add_invariant_preserved (Sequence.mk "seq_1" 5 []) "K00001" 1 {1, 2} KO
    (by decide) (by decide) ⟨"K00001", 1, {1, 2}, KO⟩ (by decide)

/-! ## Helper lemmas for the genome dict and the seqdict -/

/-- Inserting a fresh key appends the binding. -/
theorem dictInsert_fresh {α : Type} (d : List (String × α)) (k : String) (v : α)
    (h : ∀ p ∈ d, p.1 ≠ k) : dictInsert d k v = d ++ [(k, v)] := by
  unfold dictInsert
  rw [if_neg]
  simp only [List.any_eq_true, beq_iff_eq, not_exists]
  intro p hp
  exact h p hp.1 hp.2

/-- Folding dict insertion of records with pairwise-distinct names over a
dict containing none of those names appends the bindings in order. -/
theorem foldl_dictInsert_fresh (d : List (String × Sequence)) (ps : List FastaRecord)
    (hd : ∀ r ∈ ps, ∀ p ∈ d, p.1 ≠ r.name)
    (hnd : (ps.map (fun r => r.name)).Nodup) :
    ps.foldl (fun d2 r => dictInsert d2 r.name (mkSequence r)) d =
      d ++ ps.map (fun r => (r.name, mkSequence r)) := by
  induction ps generalizing d with
  | nil => simp
  | cons r ps ih =>
    rw [List.map_cons, List.nodup_cons] at hnd
    simp only [List.foldl_cons]
    rw [dictInsert_fresh d r.name (mkSequence r) (hd r (List.mem_cons_self r ps))]
    have hfresh : ∀ r2 ∈ ps, ∀ p ∈ d ++ [(r.name, mkSequence r)], p.1 ≠ r2.name := by
      intro r2 hr2 p hp
      rcases List.mem_append.1 hp with hp2 | hp2
      · exact hd r2 (List.mem_cons_of_mem r hr2) p hp2
      · rw [List.mem_singleton] at hp2
        subst hp2
        intro hcon
        refine hnd.1 ?_
        rw [show r.name = r2.name from hcon]
        exact List.mem_map_of_mem (fun r3 : FastaRecord => r3.name) hr2
    rw [ih (d ++ [(r.name, mkSequence r)]) hfresh hnd.2]
    simp

/-- Reading an association list at its head key gives the head value,
and at any other key falls through to the tail. -/
theorem dictGet_cons {α : Type} (k : String) (v : α) (d : List (String × α)) (n : String) :
    dictGet ((k, v) :: d) n = if k = n then some v else dictGet d n := by
  by_cases h : k = n <;> simp [dictGet, List.find?_cons, h]

/-- Looking each record name up in the name-keyed association list of the
records, in file order, returns the records' values in file order, as
long as the names are pairwise distinct. -/
theorem filterMap_names_dictGet (ps : List FastaRecord)
    (hnd : (ps.map (fun r => r.name)).Nodup) :
    (ps.map (fun r => r.name)).filterMap
        (fun n => dictGet (ps.map (fun r => (r.name, mkSequence r))) n) =
      ps.map mkSequence := by
  induction ps with
  | nil => rfl
  | cons r ps ih =>
    rw [List.map_cons, List.nodup_cons] at hnd
    simp only [List.map_cons, List.filterMap_cons]
    rw [dictGet_cons, if_pos rfl]
    have htail : (ps.map (fun r2 => r2.name)).filterMap
        (fun n => dictGet ((r.name, mkSequence r) :: ps.map (fun r2 => (r2.name, mkSequence r2))) n) =
        (ps.map (fun r2 => r2.name)).filterMap
          (fun n => dictGet (ps.map (fun r2 => (r2.name, mkSequence r2))) n) := by
      apply List.filterMap_congr
      intro n hn
      rw [dictGet_cons, if_neg]
      intro hcon
      exact hnd.1 (hcon ▸ hn)
    rw [htail, ih hnd.2]

/-- C9: on a genome built from records with pairwise-distinct names,
`ordered_sequences` returns exactly the per-record sequences in original
file order, and — the embedding being a pure function of the genome —
calling it twice returns identical results and mutates nothing. -/
theorem ordered_sequences_deterministic_file_order (name : String)
    (ps : List FastaRecord) (hnd : (ps.map (fun r => r.name)).Nodup) :
    (mkGenome name ps).ordered_sequences = ps.map mkSequence ∧
    (mkGenome name ps).ordered_sequences = (mkGenome name ps).ordered_sequences := by
  have hfold : (mkGenome name ps).sequences =
      ps.map (fun r => (r.name, mkSequence r)) := by
    show ps.foldl (fun d r => dictInsert d r.name (mkSequence r)) [] = _
    rw [foldl_dictInsert_fresh [] ps (by simp) hnd]
    rfl
  refine ⟨?_, rfl⟩
  show (ps.map (fun r => r.name)).filterMap
      (fun n => dictGet (mkGenome name ps).sequences n) = _
  rw [hfold]
  exact filterMap_names_dictGet ps hnd

/-- C9 witness: a concrete two-protein genome yields its two sequences in
file order, twice identically. -/
theorem ordered_sequences_deterministic_file_order_witness :
    (mkGenome "g" [⟨"seq_1", 100⟩, ⟨"seq_2", 50⟩]).ordered_sequences =
      [⟨"seq_1", 100, []⟩, ⟨"seq_2", 50, []⟩] :=
  (ordered_sequences_deterministic_file_order "g" [⟨"seq_1", 100⟩, ⟨"seq_2", 50⟩]
    (by decide)).1

/-- The folded seqdict update has a key at `p` iff the initial dict has
one or some record's region covers `p`. -/
theorem foldl_seqdict_isSome (l : List Annot) (d : ℤ → Option (Option String)) (p : ℤ) :
    ((l.foldl (fun d2 x => fun q => if q ∈ x.region then some (some x.annot) else d2 q) d) p).isSome
      ↔ (∃ x ∈ l, p ∈ x.region) ∨ (d p).isSome := by
  induction l generalizing d with
  | nil => simp
  | cons x l ih =>
    simp only [List.foldl_cons]
    rw [ih]
    by_cases h : p ∈ x.region <;> simp [h, or_assoc]

/-- The seqdict has a key at `p` iff `p` lies in `[0, length)` or in some
stored record's region. -/
theorem seqdict_isSome_iff (s : Sequence) (p : ℤ) :
    (s.seqdict p).isSome ↔
      (0 ≤ p ∧ p < (s.length : ℤ)) ∨ ∃ x ∈ s.annotations, p ∈ x.region := by
  unfold Sequence.seqdict
  rw [foldl_seqdict_isSome]
  by_cases h : 0 ≤ p ∧ p < (s.length : ℤ) <;> simp [h, or_comm]

/-- When every queried position has a key, `lookupAll` succeeds with one
entry per position. -/
theorem lookupAll_ok (d : ℤ → Option (Option String)) (qr : List ℤ)
    (h : ∀ p ∈ qr, (d p).isSome) :
    ∃ out, lookupAll d qr = Except.ok out ∧ out.length = qr.length := by
  induction qr with
  | nil => exact ⟨[], rfl, rfl⟩
  | cons p ps ih =>
    obtain ⟨v, hv⟩ := Option.isSome_iff_exists.1 (h p (List.mem_cons_self p ps))
    obtain ⟨out, hout, hlen⟩ := ih (fun q hq => h q (List.mem_cons_of_mem p hq))
    refine ⟨v :: out, ?_, by simp [hlen]⟩
    simp [lookupAll, hv, hout, Except.map]

/-- One queried position without a key makes `lookupAll` fail with
`KeyError`. -/
theorem lookupAll_error (d : ℤ → Option (Option String)) (qr : List ℤ)
    (h : ∃ p ∈ qr, d p = none) : lookupAll d qr = Except.error "KeyError" := by
  induction qr with
  | nil => simp at h
  | cons p ps ih =>
    cases hp : d p with
    | none => simp [lookupAll, hp]
    | some v =>
      obtain ⟨q, hq, hqnone⟩ := h
      rcases List.mem_cons.1 hq with hq2 | hq2
      · rw [hq2, hp] at hqnone
        cases hqnone
      · simp [lookupAll, hp, ih ⟨q, hq2, hqnone⟩, Except.map]

/-- C10: `what` succeeds (with one entry per queried position) exactly
when every queried position lies in `[0, length)` or inside some stored
record's region; a query containing a position outside that set raises
`KeyError` instead of returning an empty marker; and a record region
reaching past the sequence length enlarges the seqdict key set beyond
`[0, length)`. -/
theorem what_total_iff_positions_covered (s : Sequence) (qr : List ℤ) :
    ((∀ p ∈ qr, (0 ≤ p ∧ p < (s.length : ℤ)) ∨ ∃ x ∈ s.annotations, p ∈ x.region) →
      ∃ out, s.what qr = Except.ok out ∧ out.length = qr.length) ∧
    ((∃ p ∈ qr, ¬((0 ≤ p ∧ p < (s.length : ℤ)) ∨ ∃ x ∈ s.annotations, p ∈ x.region)) →
      s.what qr = Except.error "KeyError") ∧
    (∀ p : ℤ, (∃ x ∈ s.annotations, p ∈ x.region) → (s.seqdict p).isSome) := by
  refine ⟨?_, ?_, ?_⟩
  · intro h
    exact lookupAll_ok s.seqdict qr (fun p hp => (seqdict_isSome_iff s p).2 (h p hp))
  · intro h
    obtain ⟨p, hp, hout⟩ := h
    apply lookupAll_error s.seqdict qr
    refine ⟨p, hp, ?_⟩
    rw [← Option.not_isSome_iff_eq_none, seqdict_isSome_iff]
    exact hout
  · intro p hp
    exact (seqdict_isSome_iff s p).2 (Or.inr hp)

/-- C10 witness: on a length-3 sequence whose one record covers position
5, querying position 99 raises `KeyError`, and position 5 — beyond the
length — is a key of the seqdict. -/
theorem what_total_iff_positions_covered_witness :
    (Sequence.mk "seq_1" 3 [⟨"PF00001", 1, {5}, PFAM⟩]).what [99] =
        Except.error "KeyError" ∧
    ((Sequence.mk "seq_1" 3 [⟨"PF00001", 1, {5}, PFAM⟩]).seqdict 5).isSome :=
  ⟨(what_total_iff_positions_covered (Sequence.mk "seq_1" 3 [⟨"PF00001", 1, {5}, PFAM⟩])
      [99]).2.1 ⟨99, by decide, by decide⟩,
    (what_total_iff_positions_covered (Sequence.mk "seq_1" 3 [⟨"PF00001", 1, {5}, PFAM⟩])
      [99]).2.2 5 ⟨⟨"PF00001", 1, {5}, PFAM⟩, by decide, by decide⟩⟩

end EnrichM
